import Mathlib

/-!
Shallow embedding of the ci4rail linenoise line editor
(components/console/linenoise/linenoise.c).

Bytes are modelled as natural numbers, C strings as lists of bytes, and the
edit buffer as a total function from indices to bytes (the backing char
array).  The size_t decrement performed on the buflen field in
linenoiseEditStart is kept explicit, so the buflen field of linenoiseState
holds capacity - 1, exactly as in the C code.
-/

/-- Bytes written by moveCursorLeftWithBackspace: n backspace (0x08) bytes. -/
def backspaces (n : Nat) : List Nat := List.replicate n 8

/-- Decimal digits of a natural number as ASCII bytes (snprintf with %d). -/
def decimalBytes (n : Nat) : List Nat := (Nat.toDigits 10 n).map Char.toNat

/-- Decimal rendering of an int as ASCII bytes, with a minus sign when
negative (snprintf with %d). -/
def intDecimalBytes (i : Int) : List Nat :=
  if i < 0 then 45 :: decimalBytes i.natAbs else decimalBytes i.toNat

/-- Bytes emitted by moveCursorRight: the CUF sequence ESC [ n C. -/
def cufSeq (n : Nat) : List Nat := 27 :: 91 :: (decimalBytes n ++ [67])

/-- Write byte v at index i of the backing array. -/
def setByte (buf : Nat → Nat) (i v : Nat) : Nat → Nat :=
  fun j => if j = i then v else buf j

/-- Model of memmove shifting cnt bytes one position to the right: the
region of indices dst <= i < dst + cnt receives the byte previously at
index i - 1 (the C call is memmove(buf + dst, buf + dst - 1, cnt)). -/
def shiftRightFrom (buf : Nat → Nat) (dst cnt : Nat) : Nat → Nat :=
  fun i => if dst ≤ i ∧ i < dst + cnt then buf (i - 1) else buf i

/-- Model of memmove shifting cnt bytes one position to the left: the
region of indices dst <= i < dst + cnt receives the byte previously at
index i + 1 (the C call is memmove(buf + dst, buf + dst + 1, cnt)). -/
def shiftLeftFrom (buf : Nat → Nat) (dst cnt : Nat) : Nat → Nat :=
  fun i => if dst ≤ i ∧ i < dst + cnt then buf (i + 1) else buf i

/-- The cnt bytes of the backing array starting at index start, as a list. -/
def bufSlice (buf : Nat → Nat) (start cnt : Nat) : List Nat :=
  (List.range cnt).map fun k => buf (start + k)

/-- The strlen/strdup view of the backing array: the bytes from index i up
to (but not including) the first nul byte.  The explicit fuel bound stands
for the C guarantee that a terminator exists inside the allocation. -/
def cStringAux (buf : Nat → Nat) : Nat → Nat → List Nat
  | _, 0 => []
  | i, fuel + 1 => if buf i = 0 then [] else buf i :: cStringAux buf (i + 1) fuel

/-- The C string stored at the start of the backing array. -/
def cString (buf : Nat → Nat) (fuel : Nat) : List Nat := cStringAux buf 0 fuel

/-- struct linenoiseState.  The buflen field holds the decremented size
(capacity - 1); pos, len and buflen are size_t and modelled as Nat.  The
append buffer ab holds the output bytes produced while processing the
current input event; the terminal file descriptors are not represented. -/
structure linenoiseState where
  in_completion : Bool
  completion_idx : Nat
  completion_str : Option (List Nat)
  buf : Nat → Nat
  buflen : Nat
  plen : Nat
  pos : Nat
  len : Nat
  history_index : Nat
  showing_hint : Option (List Nat)
  hint_pos : Nat
  ab : List Nat

/-- linenoiseEditInsert: insert byte c at the cursor.  Silent no-op when
len = buflen, i.e. when the buffer is full (buflen is capacity - 1). -/
def linenoiseEditInsert (mask : Bool) (l : linenoiseState) (c : Nat) : linenoiseState :=
  if l.len < l.buflen then
    let d := if mask then 42 else c
    if l.len = l.pos then
      { l with buf := setByte (setByte l.buf l.pos c) (l.len + 1) 0,
               len := l.len + 1, pos := l.pos + 1,
               ab := l.ab ++ [d] }
    else
      let buf2 := setByte (setByte (shiftRightFrom l.buf (l.pos + 1) (l.len - l.pos)) l.pos c)
        (l.len + 1) 0
      { l with buf := buf2, len := l.len + 1, pos := l.pos + 1,
               ab := l.ab ++ [d] ++ bufSlice buf2 (l.pos + 1) (l.len - l.pos)
                     ++ backspaces (l.len - l.pos) }
  else l

/-- linenoiseEditBackspace: delete the byte left of the cursor. -/
def linenoiseEditBackspace (l : linenoiseState) : linenoiseState :=
  if 0 < l.pos ∧ 0 < l.len then
    let buf2 := setByte (shiftLeftFrom l.buf (l.pos - 1) (l.len - l.pos)) (l.len - 1) 0
    let pos2 := l.pos - 1
    let len2 := l.len - 1
    if pos2 ≠ len2 then
      { l with buf := buf2, pos := pos2, len := len2,
               ab := l.ab ++ backspaces 1 ++ bufSlice buf2 pos2 (len2 - pos2) ++ [32]
                     ++ backspaces (len2 - pos2 + 1) }
    else
      { l with buf := buf2, pos := pos2, len := len2, ab := l.ab ++ [8, 32, 8] }
  else l

/-- linenoiseEditDelete: delete the byte under the cursor (Delete key),
leaving the cursor in place. -/
def linenoiseEditDelete (l : linenoiseState) : linenoiseState :=
  if 0 < l.len ∧ l.pos < l.len then
    let buf2 := setByte (shiftLeftFrom l.buf l.pos (l.len - l.pos - 1)) (l.len - 1) 0
    let len2 := l.len - 1
    { l with buf := buf2, len := len2,
             ab := l.ab ++ bufSlice buf2 l.pos (len2 - l.pos) ++ [32]
                   ++ backspaces (len2 - l.pos + 1) }
  else l

/-- The caller-supplied buffer capacity: the buflen field holds
capacity - 1 after the decrement performed in linenoiseEditStart. -/
def capacity (l : linenoiseState) : Nat := l.buflen + 1

/-- Session invariant: 0 <= cursor <= length < capacity and the buffer is
nul-terminated at length.  The lower bounds hold by the Nat (size_t)
typing of pos and len. -/
def WellFormed (l : linenoiseState) : Prop :=
  l.pos ≤ l.len ∧ l.len < capacity l ∧ l.buf l.len = 0

instance (l : linenoiseState) : Decidable (WellFormed l) := by
  unfold WellFormed; exact inferInstance

/-- A concrete empty session state over a five byte caller buffer, used to
instantiate hypothesis-bearing theorems. -/
def emptySession : linenoiseState :=
  { in_completion := false, completion_idx := 0, completion_str := none,
    buf := fun _ => 0, buflen := 4, plen := 0, pos := 0, len := 0,
    history_index := 0, showing_hint := none, hint_pos := 0, ab := [] }

/-- modifyPos: clamp the requested position (an int in C) to [0, len] and
emit the cursor movement bytes (backspaces to the left, a CUF sequence to
the right). -/
def modifyPos (l : linenoiseState) (p : Int) : linenoiseState :=
  let p2 : Nat := if p < 0 then 0 else if (l.len : Int) < p then l.len else p.toNat
  if p2 < l.pos then { l with pos := p2, ab := l.ab ++ backspaces (l.pos - p2) }
  else if l.pos < p2 then { l with pos := p2, ab := l.ab ++ cufSeq (p2 - l.pos) }
  else { l with pos := p2 }

/-- printFromPosToRight: append the buffer tail from the cursor to the
output, bounded by max when max is not -1. -/
def printFromPosToRight (l : linenoiseState) (max : Int) : linenoiseState :=
  let len0 : Nat := l.len - l.pos
  let len1 : Nat := if max ≠ -1 ∧ max < (len0 : Int) then max.toNat else len0
  if 0 < len1 then { l with ab := l.ab ++ bufSlice l.buf l.pos len1 } else l

/-- refreshLine: cursor to column 0 via backspaces, erase to end of line
(ESC [ 0 K), rewrite the content (mask characters in mask mode), and move
the cursor back to its logical position when not at the end. -/
def refreshLine (mask : Bool) (l : linenoiseState) : linenoiseState :=
  { l with ab := l.ab ++ backspaces l.pos ++ [27, 91, 48, 75]
      ++ (if mask then List.replicate l.len 42 else bufSlice l.buf 0 l.len)
      ++ (if l.pos < l.len then backspaces (l.len - l.pos) else []) }

/-- linenoiseEditMoveLeft. -/
def linenoiseEditMoveLeft (l : linenoiseState) : linenoiseState :=
  if 0 < l.pos then modifyPos l ((l.pos : Int) - 1) else l

/-- linenoiseEditMoveRight. -/
def linenoiseEditMoveRight (l : linenoiseState) : linenoiseState :=
  if l.pos ≠ l.len then modifyPos l ((l.pos : Int) + 1) else l

/-- linenoiseEditMoveHome. -/
def linenoiseEditMoveHome (l : linenoiseState) : linenoiseState :=
  if l.pos ≠ 0 then modifyPos l 0 else l

/-- linenoiseEditMoveEnd. -/
def linenoiseEditMoveEnd (l : linenoiseState) : linenoiseState :=
  if l.pos ≠ l.len then modifyPos l (l.len : Int) else l

/-- Hint provider: given the buffer content, optionally a hint string
together with the color and bold attributes it stores through the int
pointers (linenoiseHintsCallback). -/
def HintsCallback : Type := List Nat → Option (List Nat × Int × Int)

/-- Completion provider: the candidate list produced for a given line
(linenoiseCompletionCallback filling a linenoiseCompletions table). -/
def CompletionCallback : Type := List Nat → List (List Nat)

/-- The color attribute sequence ESC [ bold ; color ; 49 m emitted before a
colored or bold hint. -/
def colorSeq (bold color : Int) : List Nat :=
  27 :: 91 :: (intDecimalBytes bold ++ [59] ++ intDecimalBytes color ++ [59, 52, 57, 109])

/-- showHint: move to the end of the visible line, render the hint (with
its attributes), move the cursor back, and record the hint and the column
it was drawn at. -/
def showHint (l : linenoiseState) (hint : List Nat) (color bold : Int) : linenoiseState :=
  let l1 := printFromPosToRight l (-1)
  let color2 := if bold = 1 ∧ color = -1 then 37 else color
  let seq := if color2 ≠ -1 ∨ bold ≠ 0 then colorSeq bold color2 else []
  { l1 with
    ab := l1.ab ++ seq ++ hint
      ++ (if color2 ≠ -1 ∨ bold ≠ 0 then [27, 91, 48, 109] else [])
      ++ backspaces (hint.length + (l1.len - l1.pos)),
    showing_hint := some hint, hint_pos := l1.pos }

/-- clearHint: blank the span occupied by the currently shown hint, taking
into account that the cursor may have moved since the hint was drawn, and
release the hint (the free-hints callback is not represented beyond
clearing the showing_hint field). -/
def clearHint (l : linenoiseState) : linenoiseState :=
  match l.showing_hint with
  | none => l
  | some sh =>
    let hintlen := sh.length
    if l.pos < l.hint_pos then
      { l with
        ab := l.ab ++ cufSeq (l.hint_pos - l.pos)
          ++ List.replicate hintlen 32
          ++ backspaces (hintlen + (l.hint_pos - l.pos)),
        showing_hint := none }
    else
      let clearlen := hintlen - (l.pos - l.hint_pos)
      { l with
        ab := l.ab ++ List.replicate clearlen 32 ++ backspaces clearlen,
        showing_hint := none }

/-- handleHints: after an input event, query the hint provider with the
buffer content and draw, replace or erase the inline hint; no-op when no
provider is registered. -/
def handleHints (hcb : Option HintsCallback) (l : linenoiseState) : linenoiseState :=
  match hcb with
  | none => l
  | some cb =>
    let l1 := { l with ab := [] }
    match cb (cString l1.buf (l1.buflen + 1)) with
    | some (hint, color, bold) =>
      match l1.showing_hint with
      | some sh =>
        if sh ≠ hint then showHint (clearHint l1) hint color bold else l1
      | none => showHint l1 hint color bold
    | none => clearHint l1

/-- strncpy(dst, src, n) into the backing array: copy the src bytes,
zero-padding up to n; no terminator is written when src fills the region. -/
def strncpyBuf (buf : Nat → Nat) (src : List Nat) (n : Nat) : Nat → Nat :=
  fun i => if i < n then src.getD i 0 else buf i

/-- strcpy(dst, src) into the backing array: copy the bytes and the
terminator. -/
def strcpyBuf (buf : Nat → Nat) (src : List Nat) : Nat → Nat :=
  fun i => if i < src.length then src.getD i 0
    else if i = src.length then 0 else buf i

/-- snprintf(dst, n, src) into the backing array: copy at most n - 1 bytes
and always write a terminator. -/
def snprintfBuf (buf : Nat → Nat) (src : List Nat) (n : Nat) : Nat → Nat :=
  fun i => if i < min src.length (n - 1) then src.getD i 0
    else if i = min src.length (n - 1) then 0 else buf i

/-- refreshLineWithCompletion: substitute the currently selected candidate
into the buffer (len is set to the full candidate length before the
strncpy truncation to buflen - 1 bytes) and refresh; plain refresh when
the index is out of range.  The completion table is supplied by
completeLine. -/
def refreshLineWithCompletion (mask : Bool) (lc : List (List Nat)) (l : linenoiseState) :
    linenoiseState :=
  if l.completion_idx < lc.length then
    let cand := lc.getD l.completion_idx []
    let l1 := { l with len := cand.length, buf := strncpyBuf l.buf cand (l.buflen - 1) }
    let l2 := modifyPos l1 (l1.len : Int)
    refreshLine mask l2
  else refreshLine mask l

/-- completeLine: handle one key while completion is active (or the first
Tab).  Returns the character the caller should continue processing (0 when
the key was consumed) together with the updated state.  The candidate table
is requested from the provider for the saved pre-completion string; bytes
are unsigned here, so the negative-return path of the C code cannot arise. -/
def completeLine (cb : CompletionCallback) (mask : Bool) (l : linenoiseState) (key : Nat) :
    Nat × linenoiseState :=
  let lc := cb (l.completion_str.getD [])
  let res :=
    if lc.length = 0 then
      (key, { l with ab := l.ab ++ [7], in_completion := false })
    else
      let step :=
        if key = 9 then
          if l.in_completion = false then
            (0, { l with in_completion := true, completion_idx := 0 })
          else
            let idx := (l.completion_idx + 1) % lc.length
            let l1 := { l with completion_idx := idx }
            (0, if idx = lc.length then { l1 with ab := l1.ab ++ [7] } else l1)
        else if key = 27 then
          let s := l.completion_str.getD []
          let l1 := { l with buf := strcpyBuf l.buf s, len := s.length }
          let l2 := modifyPos l1 (l1.len : Int)
          let l3 := if l2.completion_idx < lc.length then refreshLine mask l2 else l2
          (0, { l3 with in_completion := false })
        else
          let l1 :=
            if l.completion_idx < lc.length then
              let cand := lc.getD l.completion_idx []
              let la := { l with buf := snprintfBuf l.buf cand l.buflen, len := cand.length }
              modifyPos la (la.len : Int)
            else l
          (key, { l1 with in_completion := false })
      let l2 :=
        if step.2.in_completion = true ∧ step.2.completion_idx < lc.length then
          refreshLineWithCompletion mask lc step.2
        else refreshLine mask step.2
      (step.1, l2)
  if res.2.in_completion = false then (res.1, { res.2 with completion_str := none })
  else res

/-- Direction flag LINENOISE_HISTORY_NEXT. -/
def LINENOISE_HISTORY_NEXT : Nat := 0

/-- Direction flag LINENOISE_HISTORY_PREV. -/
def LINENOISE_HISTORY_PREV : Nat := 1

/-- linenoiseEditHistoryNext: overwrite the entry at the current history
index with the live buffer, move the index (with early-return clamping at
both ends, matching the int arithmetic of the C code), and load the new
entry into the buffer (strncpy bounded by buflen, forced terminator at
buflen - 1). -/
def linenoiseEditHistoryNext (mask : Bool) (hist : List (List Nat)) (l : linenoiseState)
    (dir : Nat) : List (List Nat) × linenoiseState :=
  if 1 < hist.length then
    let cur := cString l.buf (l.buflen + 1)
    let hist2 := hist.set (hist.length - 1 - l.history_index) cur
    let idx : Int := (l.history_index : Int) + (if dir = LINENOISE_HISTORY_PREV then 1 else -1)
    if idx < 0 then (hist2, { l with history_index := 0 })
    else if (hist2.length : Int) ≤ idx then
      (hist2, { l with history_index := hist2.length - 1 })
    else
      let idn := idx.toNat
      let entry := hist2.getD (hist2.length - 1 - idn) []
      let l1 := { l with
        history_index := idn,
        buf := setByte (strncpyBuf l.buf entry l.buflen) (l.buflen - 1) 0 }
      let l2 := { l1 with len := (cString l1.buf (l1.buflen + 1)).length }
      let l3 := modifyPos l2 (l2.len : Int)
      (hist2, refreshLine mask l3)
  else (hist, l)

/-- The outcome of one linenoiseEditFeed call: still editing
(linenoiseEditMore), a submitted line, or NULL with the read-failure,
Ctrl-C (errno EAGAIN) or Ctrl-D (errno ENOENT) conditions. -/
inductive FeedResult where
  | more
  | line (s : List Nat)
  | readFail
  | ctrlC
  | ctrlD
  deriving DecidableEq

/-- linenoiseEditFeed: read one byte from the input (plus the extra bytes
of an escape sequence, a failed read aborting the sequence silently) and
process it.  Takes the registered callbacks and mask flag plus the history
store; returns the result, the updated history, the updated state (ab
holding the output bytes of this event) and the remaining input. -/
def linenoiseEditFeed (comp : Option CompletionCallback) (hcb : Option HintsCallback)
    (mask : Bool) (hist : List (List Nat)) (l0 : linenoiseState) (input : List Nat) :
    FeedResult × List (List Nat) × linenoiseState × List Nat :=
  match input with
  | [] => (.readFail, hist, l0, [])
  | c0 :: rest =>
    let la := { l0 with ab := [] }
    let compStep : Nat × linenoiseState × Bool :=
      match comp with
      | some cb =>
        if la.in_completion = true ∨ c0 = 9 then
          let l1 := if la.in_completion = false
            then { la with completion_str := some (cString la.buf (la.buflen + 1)) } else la
          let r := completeLine cb mask l1 c0
          if r.1 = 0 then (0, r.2, true) else (r.1, r.2, false)
        else (c0, la, false)
      | none => (c0, la, false)
    if compStep.2.2 = true then (.more, hist, compStep.2.1, rest)
    else
      let c := compStep.1
      let l := compStep.2.1
      if c = 13 then
        let hist2 := hist.dropLast
        let l1 := if hcb.isSome then refreshLine mask l else l
        (.line (cString l1.buf (l1.buflen + 1)), hist2, l1, rest)
      else if c = 3 then
        (.ctrlC, hist, l, rest)
      else if c = 127 ∨ c = 8 then
        (.more, hist, linenoiseEditBackspace l, rest)
      else if c = 4 then
        if 0 < l.len then (.more, hist, linenoiseEditDelete l, rest)
        else (.ctrlD, hist.dropLast, l, rest)
      else if c = 20 then
        if 0 < l.pos ∧ l.pos < l.len then
          let x := l.buf (l.pos - 1)
          let y := l.buf l.pos
          let l1 := { l with buf := setByte (setByte l.buf (l.pos - 1) y) l.pos x }
          let l2 := if l1.pos ≠ l1.len - 1 then modifyPos l1 ((l1.pos : Int) + 1) else l1
          (.more, hist, refreshLine mask l2, rest)
        else (.more, hist, l, rest)
      else if c = 2 then (.more, hist, linenoiseEditMoveLeft l, rest)
      else if c = 6 then (.more, hist, linenoiseEditMoveRight l, rest)
      else if c = 16 then
        let r := linenoiseEditHistoryNext mask hist l LINENOISE_HISTORY_PREV
        (.more, r.1, r.2, rest)
      else if c = 14 then
        let r := linenoiseEditHistoryNext mask hist l LINENOISE_HISTORY_NEXT
        (.more, r.1, r.2, rest)
      else if c = 27 then
        match rest with
        | [] => (.more, hist, l, [])
        | s0 :: rest1 =>
          match rest1 with
          | [] => (.more, hist, l, [])
          | s1 :: rest2 =>
            if s0 = 91 then
              if 48 ≤ s1 ∧ s1 ≤ 57 then
                match rest2 with
                | [] => (.more, hist, l, [])
                | s2 :: rest3 =>
                  if s2 = 126 ∧ s1 = 51 then (.more, hist, linenoiseEditDelete l, rest3)
                  else (.more, hist, l, rest3)
              else
                if s1 = 65 then
                  let r := linenoiseEditHistoryNext mask hist l LINENOISE_HISTORY_PREV
                  (.more, r.1, r.2, rest2)
                else if s1 = 66 then
                  let r := linenoiseEditHistoryNext mask hist l LINENOISE_HISTORY_NEXT
                  (.more, r.1, r.2, rest2)
                else if s1 = 67 then (.more, hist, linenoiseEditMoveRight l, rest2)
                else if s1 = 68 then (.more, hist, linenoiseEditMoveLeft l, rest2)
                else if s1 = 72 then (.more, hist, linenoiseEditMoveHome l, rest2)
                else if s1 = 70 then (.more, hist, linenoiseEditMoveEnd l, rest2)
                else (.more, hist, l, rest2)
            else if s0 = 79 then
              if s1 = 72 then (.more, hist, linenoiseEditMoveHome l, rest2)
              else if s1 = 70 then (.more, hist, linenoiseEditMoveEnd l, rest2)
              else (.more, hist, l, rest2)
            else (.more, hist, l, rest2)
      else if c = 21 then
        let l1 := { l with buf := setByte l.buf 0 0, len := 0 }
        let l2 := modifyPos l1 0
        (.more, hist, refreshLine mask l2, rest)
      else if c = 11 then
        let l1 := { l with buf := setByte l.buf l.pos 0, len := l.pos }
        (.more, hist, refreshLine mask l1, rest)
      else if c = 1 then (.more, hist, linenoiseEditMoveHome l, rest)
      else if c = 5 then (.more, hist, linenoiseEditMoveEnd l, rest)
      else if c = 18 then (.more, hist, refreshLine mask l, rest)
      else if c = 9 then (.more, hist, l, rest)
      else (.more, hist, linenoiseEditInsert mask l c, rest)

/-- linenoiseHistoryAdd over the history store (list of entries, oldest
first) with the process-wide max length: no-op for max length 0, duplicate
of the most recent entry rejected, oldest entry evicted when full, copy of
the line appended. -/
def linenoiseHistoryAdd (maxLen : Nat) (hist : List (List Nat)) (line : List Nat) :
    List (List Nat) :=
  if maxLen = 0 then hist
  else if hist.getLast? = some line then hist
  else
    let hist2 := if hist.length = maxLen then hist.tail else hist
    hist2 ++ [line]

/-- linenoiseHistorySetMaxLen: fails for a requested length below 1;
otherwise keeps the newest entries that fit and updates the max length.
Returns the success flag with the new (max length, history). -/
def linenoiseHistorySetMaxLen (maxLen : Nat) (hist : List (List Nat)) (newLen : Nat) :
    Bool × Nat × List (List Nat) :=
  if newLen < 1 then (false, maxLen, hist)
  else
    let tocopy := min hist.length newLen
    (true, newLen, hist.drop (hist.length - tocopy))

/-- linenoiseHistorySave: the byte content written to the file, each entry
followed by a newline (fprintf %s then newline); entries are C strings,
lists of nonzero bytes. -/
def linenoiseHistorySave (hist : List (List Nat)) : List Nat :=
  (hist.map (fun e => e ++ [10])).join

/-- One fgets call with buffer size 512 (LINENOISE_MAX_LINE): take at most
511 bytes, stopping after a newline. -/
def takeFgets : Nat → List Nat → List Nat
  | 0, _ => []
  | _, [] => []
  | n + 1, b :: rest => if b = 10 then [10] else b :: takeFgets n rest

/-- The fgets loop of linenoiseHistoryLoad splitting the file into lines,
with explicit fuel (each call consumes at least one byte of a nonempty
file). -/
def fgetsSplit : Nat → List Nat → List (List Nat)
  | 0, _ => []
  | fuel + 1, file =>
    if file = [] then []
    else
      let line := takeFgets 511 file
      line :: fgetsSplit fuel (file.drop line.length)

/-- The strchr-based stripping of linenoiseHistoryLoad: truncate at the
first carriage return if any, otherwise at the first newline. -/
def stripNewline (line : List Nat) : List Nat :=
  if 13 ∈ line then line.takeWhile (fun b => b != 13)
  else line.takeWhile (fun b => b != 10)

/-- linenoiseHistoryLoad: split the file into fgets lines, strip each and
feed it through linenoiseHistoryAdd. -/
def linenoiseHistoryLoad (maxLen : Nat) (hist : List (List Nat)) (file : List Nat) :
    List (List Nat) :=
  (fgetsSplit file.length file).foldl
    (fun h line => linenoiseHistoryAdd maxLen h (stripNewline line)) hist

/-- Result of linenoiseEditStart: the returned status together with the
updated history and the initialized state. -/
structure StartResult where
  status : Int
  hist : List (List Nat)
  state : linenoiseState

/-- linenoiseEditStart: initialize the session state, including the size_t
decrement of buflen (which wraps modulo 2^64 when the supplied capacity is
0); for a tty input, enter raw mode, register the placeholder history
entry and write the prompt.  istty models isatty and rawOk the success of
the raw-mode configuration calls; there is no capacity check. -/
def linenoiseEditStart (istty rawOk : Bool) (maxHist : Nat) (hist : List (List Nat))
    (buf : Nat → Nat) (buflen plen : Nat) : StartResult :=
  let l : linenoiseState :=
    { in_completion := false, completion_idx := 0, completion_str := none,
      buf := setByte buf 0 0,
      buflen := (buflen + (2 ^ 64 - 1)) % 2 ^ 64,
      plen := plen, pos := 0, len := 0, history_index := 0,
      showing_hint := none, hint_pos := 0, ab := [] }
  if istty = false then ⟨0, hist, l⟩
  else if rawOk = false then ⟨-1, hist, l⟩
  else ⟨0, linenoiseHistoryAdd maxHist hist [], l⟩

/-- Result of the blocking edit: the EINVAL rejection for a zero capacity,
or the final feed result together with the final history. -/
inductive BlockingResult where
  | invalidArg
  | finished (r : FeedResult) (hist : List (List Nat))

/-- The feed/handleHints loop of linenoiseBlockingEdit, with fuel (every
iteration consumes at least one input byte, and an empty input ends the
loop with a read failure). -/
def blockingLoop (comp : Option CompletionCallback) (hcb : Option HintsCallback)
    (mask : Bool) : Nat → List (List Nat) → linenoiseState → List Nat → BlockingResult
  | 0, hist, _, _ => .finished .readFail hist
  | fuel + 1, hist, l, input =>
    let r := linenoiseEditFeed comp hcb mask hist l input
    match r.1 with
    | .more => blockingLoop comp hcb mask fuel r.2.1 (handleHints hcb r.2.2.1) r.2.2.2
    | res => .finished res r.2.1

/-- linenoiseBlockingEdit: reject a zero buffer size with EINVAL before any
editing takes place, otherwise start the session and run the feed loop. -/
def linenoiseBlockingEdit (comp : Option CompletionCallback) (hcb : Option HintsCallback)
    (mask : Bool) (istty rawOk : Bool) (maxHist : Nat) (hist : List (List Nat))
    (buf : Nat → Nat) (buflen plen : Nat) (input : List Nat) : BlockingResult :=
  if buflen = 0 then .invalidArg
  else
    let s := linenoiseEditStart istty rawOk maxHist hist buf buflen plen
    blockingLoop comp hcb mask (input.length + 1) s.hist s.state input

/-- Pointer values passed to linenoiseFree: the linenoiseEditMore sentinel
or a heap allocation identified by its id. -/
inductive LNPtr where
  | editMore
  | heap (a : Nat)
  deriving DecidableEq

/-- linenoiseFree over an allocation-set heap model (the list of live
allocation ids): the linenoiseEditMore sentinel is left untouched (the API
misuse guard), and free(ptr) releases the pointed-to allocation. -/
def linenoiseFree (live : List Nat) (p : LNPtr) : List Nat :=
  match p with
  | .editMore => live
  | .heap a => live.erase a

/-- The C6 trace, start: one submitted line in the history, then a session
starts over a ten byte buffer and registers the placeholder entry. -/
def navTraceStart : StartResult :=
  linenoiseEditStart true true 100 (linenoiseHistoryAdd 100 [] [97]) (fun _ => 0) 10 0

/-- The C6 trace, step 1: the user presses Up (ESC [ A). -/
def navTrace1 : FeedResult × List (List Nat) × linenoiseState × List Nat :=
  linenoiseEditFeed none none false navTraceStart.hist navTraceStart.state [27, 91, 65]

/-- The C6 trace, step 2: the user clears the line with Ctrl-U. -/
def navTrace2 : FeedResult × List (List Nat) × linenoiseState × List Nat :=
  linenoiseEditFeed none none false navTrace1.2.1 navTrace1.2.2.1 [21]

/-- The C6 trace, step 3: the user presses Up again; history navigation
overwrites the oldest entry with the now empty live buffer. -/
def navTrace3 : FeedResult × List (List Nat) × linenoiseState × List Nat :=
  linenoiseEditFeed none none false navTrace2.2.1 navTrace2.2.2.1 [27, 91, 65]

/-- A completion provider with a single candidate, for the C3 failing
input. -/
def tabCb : CompletionCallback := fun _ => [[97]]

/-- The C3 failing input state: completion active on the first (only)
candidate, the saved pre-completion line empty. -/
def tabSession : linenoiseState :=
  { emptySession with
    buflen := 9, in_completion := true, completion_idx := 0,
    completion_str := some [] }

theorem emptySession_wf : WellFormed emptySession := by
  refine ⟨Nat.le_refl 0, ?_, rfl⟩
  simp [capacity, emptySession]

/-- C1: each primitive mutation preserves 0 <= cursor <= length < capacity
and nul-termination of the buffer at length; moreover insert is a silent
no-op on a full buffer, backspace is a no-op at cursor 0 and deleteForward
is a no-op at end of line. -/
theorem C1_edit_invariants (mask : Bool) (l : linenoiseState) (c : Nat)
    (h : WellFormed l) :
    WellFormed (linenoiseEditInsert mask l c) ∧
    WellFormed (linenoiseEditBackspace l) ∧
    WellFormed (linenoiseEditDelete l) ∧
    (l.len = l.buflen → linenoiseEditInsert mask l c = l) ∧
    (l.pos = 0 → linenoiseEditBackspace l = l) ∧
    (l.pos = l.len → linenoiseEditDelete l = l) := by
  obtain ⟨hpl, hlc, hnul⟩ := h
  unfold capacity at hlc
  refine ⟨?_, ?_, ?_, ?_, ?_, ?_⟩
  · unfold linenoiseEditInsert
    simp only [WellFormed, capacity]
    split_ifs <;> simp_all [setByte] <;> omega
  · unfold linenoiseEditBackspace
    simp only [WellFormed, capacity]
    split_ifs <;> simp_all [setByte] <;> omega
  · unfold linenoiseEditDelete
    simp only [WellFormed, capacity]
    split_ifs <;> simp_all [setByte] <;> omega
  · intro hfull
    have hn : ¬ l.len < l.buflen := by omega
    simp [linenoiseEditInsert, hn]
  · intro hzero
    simp [linenoiseEditBackspace, hzero]
  · intro hend
    have hn : ¬ l.pos < l.len := by omega
    simp [linenoiseEditDelete, hn]

/-- Witness for C1 at a concrete well-formed session state. -/
theorem C1_edit_invariants_witness :
    WellFormed emptySession ∧ WellFormed (linenoiseEditInsert false emptySession 97) :=
  ⟨emptySession_wf, (C1_edit_invariants false emptySession 97 emptySession_wf).1⟩

/-- Pointwise restoration of the backing array by a tail insert followed by
a backspace, stated over the raw buffer operations. -/
theorem insert_backspace_restore_tail (buf : Nat → Nat) (p n c : Nat)
    (hpn : p = n) (hnul : buf n = 0) (i : Nat) (hi : i ≤ n) :
    setByte (shiftLeftFrom (setByte (setByte buf p c) (n + 1) 0) p (n - p)) n 0 i = buf i := by
  subst hpn
  by_cases hin : i = p
  · subst hin
    simp [setByte, hnul]
  · simp only [setByte, shiftLeftFrom]
    split_ifs <;> first | rfl | omega

/-- Pointwise restoration of the backing array by a mid-line insert followed
by a backspace, stated over the raw buffer operations. -/
theorem insert_backspace_restore_mid (buf : Nat → Nat) (p n c : Nat)
    (hpl : p ≤ n) (hnul : buf n = 0) (i : Nat) (hi : i ≤ n) :
    setByte (shiftLeftFrom
      (setByte (setByte (shiftRightFrom buf (p + 1) (n - p)) p c) (n + 1) 0)
      p (n - p)) n 0 i = buf i := by
  by_cases hin : i = n
  · subst hin
    simp [setByte, hnul]
  · simp only [setByte, shiftLeftFrom, shiftRightFrom]
    split_ifs <;> first | rfl | omega | (congr 1; omega) | simp_all

/-- C2: with room for one more byte, insert followed immediately by
backspace restores the pre-insert buffer content (up to and including the
terminator), the length and the cursor position. -/
theorem C2_insert_backspace_inverse (mask : Bool) (l : linenoiseState) (c : Nat)
    (hwf : WellFormed l) (hroom : l.len < capacity l - 1) :
    (linenoiseEditBackspace (linenoiseEditInsert mask l c)).len = l.len ∧
    (linenoiseEditBackspace (linenoiseEditInsert mask l c)).pos = l.pos ∧
    ∀ i, i ≤ l.len → (linenoiseEditBackspace (linenoiseEditInsert mask l c)).buf i = l.buf i := by
  obtain ⟨hpl, hlc, hnul⟩ := hwf
  have hroom2 : l.len < l.buflen := by
    unfold capacity at hroom; omega
  by_cases htail : l.len = l.pos
  · have hg : 0 < l.pos + 1 ∧ 0 < l.len + 1 := ⟨Nat.succ_pos _, Nat.succ_pos _⟩
    have hne : ¬ (l.pos ≠ l.len) := by omega
    simp only [linenoiseEditInsert, if_pos hroom2, if_pos htail,
      linenoiseEditBackspace, Nat.add_sub_cancel, Nat.succ_sub_succ, Nat.sub_zero,
      if_pos hg, if_neg hne]
    refine ⟨by trivial, by trivial, ?_⟩
    intro i hi
    exact insert_backspace_restore_tail l.buf l.pos l.len c htail.symm hnul i hi
  · have hpltn : l.pos < l.len := by omega
    have hg : 0 < l.pos + 1 ∧ 0 < l.len + 1 := ⟨Nat.succ_pos _, Nat.succ_pos _⟩
    have hne : l.pos ≠ l.len := by omega
    simp only [linenoiseEditInsert, if_pos hroom2, if_neg htail,
      linenoiseEditBackspace, Nat.add_sub_cancel, Nat.succ_sub_succ, Nat.sub_zero,
      if_pos hg, if_pos hne]
    refine ⟨by trivial, by trivial, ?_⟩
    intro i hi
    exact insert_backspace_restore_mid l.buf l.pos l.len c hpl hnul i hi

/-- C10: linenoiseFree leaves the heap untouched when given the
linenoiseEditMore sentinel and releases the pointed-to allocation for any
other pointer. -/
theorem C10_free_sentinel (live : List Nat) (a : Nat) (hnd : live.Nodup) :
    linenoiseFree live .editMore = live ∧
    linenoiseFree live (.heap a) = live.erase a ∧
    a ∉ linenoiseFree live (.heap a) := by
  refine ⟨rfl, rfl, ?_⟩
  exact hnd.not_mem_erase

/-- Witness for C10 on a concrete two-element heap. -/
theorem C10_free_sentinel_witness :
    ([3, 5] : List Nat).Nodup ∧
    linenoiseFree [3, 5] .editMore = [3, 5] ∧ 5 ∉ linenoiseFree [3, 5] (.heap 5) := by
  have h : ([3, 5] : List Nat).Nodup := by decide
  exact ⟨h, (C10_free_sentinel [3, 5] 5 h).1, (C10_free_sentinel [3, 5] 5 h).2.2⟩

/-- C8 counterexample: linenoiseEditStart itself performs no capacity
check; with capacity 0 (and a non-tty input) it reports success (0) after
wrapping its internal buffer size around to 2^64 - 1, instead of failing
with an invalid-argument error. -/
theorem C8_start_no_capacity_check :
    (linenoiseEditStart false true 100 [] (fun _ => 0) 0 0).status = 0 ∧
    (linenoiseEditStart false true 100 [] (fun _ => 0) 0 0).state.buflen = 2 ^ 64 - 1 := by
  constructor
  · rfl
  · rfl

/-- C8 (amended): the blocking-edit entry point rejects capacity 0 with
EINVAL before any editing takes place, while the step API
linenoiseEditStart performs no capacity check and reports success for
capacity 0 when the input is not a tty. -/
theorem C8_capacity_zero (comp : Option CompletionCallback) (hcb : Option HintsCallback)
    (mask istty rawOk : Bool) (maxHist : Nat) (hist : List (List Nat))
    (buf : Nat → Nat) (plen : Nat) (input : List Nat) :
    linenoiseBlockingEdit comp hcb mask istty rawOk maxHist hist buf 0 plen input =
      .invalidArg ∧
    (linenoiseEditStart false rawOk maxHist hist buf 0 plen).status = 0 := by
  constructor
  · simp [linenoiseBlockingEdit]
  · simp [linenoiseEditStart]

/-- C4 counterexample: after Ctrl-C the placeholder history entry is still
present — linenoiseEditFeed reports the interrupt condition but does not
pop the entry registered at session start. -/
theorem C4_ctrlC_keeps_placeholder :
    (linenoiseEditFeed none none false [[]] emptySession [3]).1 = .ctrlC ∧
    (linenoiseEditFeed none none false [[]] emptySession [3]).2.1 = [[]] :=
  ⟨rfl, rfl⟩

/-- C4 (amended): Ctrl-C and Ctrl-D on an empty buffer terminate feed with
the distinct interrupt (EAGAIN) and end-of-input (ENOENT) conditions and no
returned line; Ctrl-D pops the placeholder history entry while Ctrl-C
leaves the history store unchanged. -/
theorem C4_termination_conditions (hcb : Option HintsCallback) (mask : Bool)
    (hist : List (List Nat)) (l : linenoiseState) (rest : List Nat)
    (hne : hist ≠ []) (hempty : l.len = 0) :
    linenoiseEditFeed none hcb mask hist l (3 :: rest) =
      (.ctrlC, hist, { l with ab := [] }, rest) ∧
    linenoiseEditFeed none hcb mask hist l (4 :: rest) =
      (.ctrlD, hist.dropLast, { l with ab := [] }, rest) ∧
    hist.dropLast.length = hist.length - 1 ∧ FeedResult.ctrlC ≠ FeedResult.ctrlD := by
  refine ⟨?_, ?_, List.length_dropLast hist, by simp⟩
  · simp [linenoiseEditFeed]
  · simp [linenoiseEditFeed, hempty]

/-- Witness for C4 at a concrete session. -/
theorem C4_termination_conditions_witness :
    ([[]] : List (List Nat)) ≠ [] ∧ emptySession.len = 0 ∧
    linenoiseEditFeed none none false [[]] emptySession (3 :: []) =
      (.ctrlC, [[]], { emptySession with ab := [] }, []) :=
  ⟨by simp, rfl,
    (C4_termination_conditions none false [[]] emptySession [] (by simp) rfl).1⟩

/-- C3: at the failing input (a single candidate, completion active on it,
Tab pressed) the code advances the index modulo the candidate count,
(0 + 1) % 1 = 0, so it stays on the first candidate, never reaches the
no-selection state and never sounds the bell (byte 7): the wrap check
completion_idx == lc.len placed right after the modulo is unreachable. -/
theorem C3_tab_wrap_never_beeps :
    (completeLine tabCb false tabSession 9).2.in_completion = true ∧
    (completeLine tabCb false tabSession 9).2.completion_idx = 0 ∧
    7 ∉ (completeLine tabCb false tabSession 9).2.ab := by
  refine ⟨rfl, rfl, ?_⟩
  decide

/-- C6 counterexample: a trace through the public operations (history add,
session start, Up, Ctrl-U, Up) leaves the history store with two equal
adjacent entries: navigation overwrites the current entry with the live
buffer and can duplicate its neighbour. -/
theorem C6_navigation_breaks_invariant :
    navTrace3.2.1 = [[], []] ∧ ¬ List.Chain' (· ≠ ·) navTrace3.2.1 := by
  have he : navTrace3.2.1 = [[], []] := rfl
  refine ⟨he, ?_⟩
  rw [he]
  simp [List.chain'_cons]

/-- The last entry of a store survives taking the tail. -/
theorem getLast?_of_tail {α : Type} {l : List α} {x : α}
    (h : l.tail.getLast? = some x) : l.getLast? = some x := by
  cases l with
  | nil => simp at h
  | cons a t =>
    cases t with
    | nil => simp at h
    | cons b u => simpa [List.getLast?_cons_cons] using h

/-- linenoiseHistoryAdd preserves the no-adjacent-duplicates invariant. -/
theorem historyAdd_chain (maxLen : Nat) (hist : List (List Nat)) (line : List Nat)
    (hch : List.Chain' (· ≠ ·) hist) :
    List.Chain' (· ≠ ·) (linenoiseHistoryAdd maxLen hist line) := by
  unfold linenoiseHistoryAdd
  split_ifs with h1 h2 h3
  · exact hch
  · exact hch
  · refine List.chain'_append.mpr ⟨hch.tail, List.chain'_singleton _, ?_⟩
    intro x hx y hy hxy
    simp at hy
    subst hy
    subst hxy
    exact h2 (getLast?_of_tail (Option.mem_def.mp hx))
  · refine List.chain'_append.mpr ⟨hch, List.chain'_singleton _, ?_⟩
    intro x hx y hy hxy
    simp at hy
    subst hy
    subst hxy
    exact h2 (Option.mem_def.mp hx)

/-- Folding adjacent-distinct lines into a store with enough room appends
them unchanged (no eviction, no duplicate rejection). -/
theorem historyAdd_foldl_append (maxLen : Nat) :
    ∀ (suf acc : List (List Nat)), acc.length + suf.length ≤ maxLen →
      List.Chain' (· ≠ ·) (acc ++ suf) →
      suf.foldl (linenoiseHistoryAdd maxLen) acc = acc ++ suf := by
  intro suf
  induction suf with
  | nil => intro acc _ _; simp
  | cons s rest ih =>
    intro acc hlen hch
    have hm : ¬ maxLen = 0 := by simp at hlen; omega
    have hnf : ¬ acc.length = maxLen := by simp at hlen; omega
    have hlast : ¬ acc.getLast? = some s := by
      intro hc
      rcases List.chain'_append.mp hch with ⟨-, -, hlink⟩
      exact hlink s (Option.mem_def.mpr hc) s (by simp) rfl
    have hstep : linenoiseHistoryAdd maxLen acc s = acc ++ [s] := by
      simp [linenoiseHistoryAdd, hm, hlast, hnf]
    rw [List.foldl_cons, hstep,
      ih (acc ++ [s]) (by simp at hlen ⊢; omega) (by simpa [List.append_assoc] using hch)]
    simp

/-- C5: a duplicate submission in direct succession stores a single entry
(the second add is a no-op), and adding max_len + 1 pairwise-distinct lines
to an empty store keeps exactly the last max_len of them, evicting the
oldest and preserving the order of the rest. -/
theorem C5_history_dedup_eviction (maxLen : Nat) :
    (∀ (hist : List (List Nat)) (line : List Nat),
      linenoiseHistoryAdd maxLen (linenoiseHistoryAdd maxLen hist line) line =
        linenoiseHistoryAdd maxLen hist line) ∧
    (∀ lines : List (List Nat), lines.Pairwise (· ≠ ·) →
      lines.length = maxLen + 1 →
      lines.foldl (linenoiseHistoryAdd maxLen) [] = lines.drop 1) := by
  constructor
  · intro hist line
    by_cases hm : maxLen = 0
    · simp [linenoiseHistoryAdd, hm]
    · by_cases hd : hist.getLast? = some line
      · simp [linenoiseHistoryAdd, hm, hd]
      · have h2 : (linenoiseHistoryAdd maxLen hist line).getLast? = some line := by
          simp [linenoiseHistoryAdd, hm, hd, List.getLast?_concat]
        generalize hq : linenoiseHistoryAdd maxLen hist line = q at h2 ⊢
        simp [linenoiseHistoryAdd, hm, h2]
  · intro lines hdist hlen
    by_cases hm : maxLen = 0
    · subst hm
      obtain ⟨a, ha⟩ := List.length_eq_one.mp hlen
      subst ha
      simp [linenoiseHistoryAdd]
    · obtain ⟨a, rest, hal⟩ : ∃ a rest, lines = a :: rest := by
        cases lines with
        | nil => simp at hlen
        | cons a rest => exact ⟨a, rest, rfl⟩
      subst hal
      rcases List.eq_nil_or_concat rest with hr | ⟨mid, z, hr⟩
      · subst hr; simp at hlen; omega
      · subst hr
        have hchain : List.Chain' (· ≠ ·) (a :: (mid ++ [z])) := by
          simpa [List.concat_eq_append] using hdist.chain'
        have hlen2 : mid.length + 1 + 1 = maxLen + 1 := by
          simpa [List.concat_eq_append] using hlen
        have hchain2 : List.Chain' (· ≠ ·) ((a :: mid) ++ [z]) := by
          simpa using hchain
        have h0 : linenoiseHistoryAdd maxLen [] a = [a] := by
          simp [linenoiseHistoryAdd, hm]
        have h1 : mid.foldl (linenoiseHistoryAdd maxLen) [a] = a :: mid := by
          have := historyAdd_foldl_append maxLen mid [a] (by simp; omega)
            (by simpa using (List.chain'_append.mp hchain2).1)
          simpa using this
        have hfull : (a :: mid).length = maxLen := by simp; omega
        have hlast : ¬ (a :: mid).getLast? = some z := by
          intro hc
          rcases List.chain'_append.mp hchain2 with ⟨-, -, hlink⟩
          exact hlink z (Option.mem_def.mpr hc) z (by simp) rfl
        have h2 : linenoiseHistoryAdd maxLen (a :: mid) z = mid ++ [z] := by
          simp [linenoiseHistoryAdd, hm, hlast, hfull]
        simp only [List.concat_eq_append]
        rw [List.foldl_cons, h0, List.foldl_append, h1, List.foldl_cons, List.foldl_nil, h2]
        simp

/-- Witness for C5 with max_len 1 and two distinct lines. -/
theorem C5_history_dedup_eviction_witness :
    ([[97], [98]] : List (List Nat)).Pairwise (· ≠ ·) ∧
    ([[97], [98]] : List (List Nat)).length = 1 + 1 ∧
    ([[97], [98]] : List (List Nat)).foldl (linenoiseHistoryAdd 1) [] =
      ([[97], [98]] : List (List Nat)).drop 1 := by
  have h1 : ([[97], [98]] : List (List Nat)).Pairwise (· ≠ ·) := by decide
  have h2 : ([[97], [98]] : List (List Nat)).length = 1 + 1 := rfl
  exact ⟨h1, h2, (C5_history_dedup_eviction 1).2 [[97], [98]] h1 h2⟩

/-- A fold of linenoiseHistoryAdd over stripped lines preserves the
no-adjacent-duplicates invariant of the store. -/
theorem historyLoad_foldl_chain (maxLen : Nat) (lines : List (List Nat)) :
    ∀ hist, List.Chain' (· ≠ ·) hist →
      List.Chain' (· ≠ ·)
        (lines.foldl (fun h line => linenoiseHistoryAdd maxLen h (stripNewline line)) hist) := by
  induction lines with
  | nil => intro hist h; simpa
  | cons a rest ih =>
    intro hist h
    rw [List.foldl_cons]
    exact ih _ (historyAdd_chain _ _ _ h)

/-- C6 (amended): the no-adjacent-duplicates invariant is preserved by
history add, by set-max-len and by load; in-session history navigation,
which first overwrites the current entry with the live buffer, can break
it (see the counterexample trace). -/
theorem C6_adjacent_distinct (maxLen newLen : Nat) (hist : List (List Nat))
    (line : List Nat) (file : List Nat) (hch : List.Chain' (· ≠ ·) hist) :
    List.Chain' (· ≠ ·) (linenoiseHistoryAdd maxLen hist line) ∧
    List.Chain' (· ≠ ·) (linenoiseHistorySetMaxLen maxLen hist newLen).2.2 ∧
    List.Chain' (· ≠ ·) (linenoiseHistoryLoad maxLen hist file) := by
  refine ⟨historyAdd_chain _ _ _ hch, ?_, ?_⟩
  · unfold linenoiseHistorySetMaxLen
    split_ifs
    · exact hch
    · exact hch.drop _
  · unfold linenoiseHistoryLoad
    exact historyLoad_foldl_chain _ _ _ hch

/-- Witness for C6 on a concrete adjacent-distinct store. -/
theorem C6_adjacent_distinct_witness :
    List.Chain' (· ≠ ·) ([[97]] : List (List Nat)) ∧
    List.Chain' (· ≠ ·) (linenoiseHistoryAdd 100 [[97]] [98]) := by
  have h : List.Chain' (· ≠ ·) ([[97]] : List (List Nat)) := List.chain'_singleton _
  exact ⟨h, (C6_adjacent_distinct 100 1 [[97]] [98] [] h).1⟩

/-- Unfolding one step of bufSlice. -/
theorem bufSlice_succ (buf : Nat → Nat) (i k : Nat) :
    bufSlice buf i (k + 1) = buf i :: bufSlice buf (i + 1) k := by
  unfold bufSlice
  rw [List.range_succ_eq_map]
  simp only [List.map_cons, List.map_map]
  congr 1
  apply List.map_congr_left
  intro a _
  simp only [Function.comp]
  congr 1
  omega

/-- The C-string view of the buffer agrees with the content slice when the
content has no interior nul bytes and is nul-terminated. -/
theorem cStringAux_eq_bufSlice (buf : Nat → Nat) :
    ∀ (k i fuel : Nat), (∀ j, j < k → buf (i + j) ≠ 0) → buf (i + k) = 0 → k < fuel →
      cStringAux buf i fuel = bufSlice buf i k := by
  intro k
  induction k with
  | zero =>
    intro i fuel hnz h0 hf
    match fuel, hf with
    | f + 1, _ =>
      simp only [Nat.add_zero] at h0
      simp [cStringAux, h0, bufSlice]
  | succ k ih =>
    intro i fuel hnz h0 hf
    match fuel, hf with
    | f + 1, _ =>
      have hbi : buf i ≠ 0 := by
        have := hnz 0 (Nat.succ_pos k)
        simpa using this
      rw [bufSlice_succ]
      have hstep : cStringAux buf i (f + 1) = buf i :: cStringAux buf (i + 1) f := by
        simp [cStringAux, hbi]
      rw [hstep]
      exact congrArg (List.cons (buf i)) (ih (i + 1) f
        (fun j hj => by
          have := hnz (j + 1) (by omega)
          rwa [show i + (j + 1) = i + 1 + j by omega] at this)
        (by rwa [show i + (k + 1) = i + 1 + k by omega] at h0)
        (by omega))

/-- The line strdup returns on Enter is the buffer content. -/
theorem cString_eq_content (l : linenoiseState) (hwf : WellFormed l)
    (hnz : ∀ i, i < l.len → l.buf i ≠ 0) :
    cString l.buf (l.buflen + 1) = bufSlice l.buf 0 l.len := by
  obtain ⟨-, hlc, hnul⟩ := hwf
  unfold cString
  apply cStringAux_eq_bufSlice
  · intro j hj
    simpa using hnz j hj
  · simpa using hnul
  · unfold capacity at hlc
    omega

/-- showHint touches only ab and the hint bookkeeping fields. -/
theorem showHint_frame (l : linenoiseState) (hint : List Nat) (color bold : Int) :
    (showHint l hint color bold).buf = l.buf ∧
    (showHint l hint color bold).len = l.len ∧
    (showHint l hint color bold).pos = l.pos := by
  simp only [showHint, printFromPosToRight]
  split_ifs <;> exact ⟨rfl, rfl, rfl⟩

/-- clearHint touches only ab and the hint bookkeeping fields. -/
theorem clearHint_frame (l : linenoiseState) :
    (clearHint l).buf = l.buf ∧ (clearHint l).len = l.len ∧ (clearHint l).pos = l.pos := by
  unfold clearHint
  split
  · exact ⟨rfl, rfl, rfl⟩
  · split_ifs <;> exact ⟨rfl, rfl, rfl⟩

/-- handleHints never changes the buffer, the length or the cursor. -/
theorem handleHints_frame (hcb : Option HintsCallback) (l : linenoiseState) :
    (handleHints hcb l).buf = l.buf ∧ (handleHints hcb l).len = l.len ∧
    (handleHints hcb l).pos = l.pos := by
  cases hcb with
  | none => exact ⟨rfl, rfl, rfl⟩
  | some cb =>
    simp only [handleHints]
    cases hr : cb (cString l.buf (l.buflen + 1)) with
    | none => exact clearHint_frame _
    | some p =>
      obtain ⟨hint, color, bold⟩ := p
      cases hs : l.showing_hint with
      | none => exact showHint_frame _ _ _ _
      | some sh =>
        simp only []
        split_ifs with hne
        · obtain ⟨sb, sl, sp⟩ := showHint_frame
            (clearHint { l with showing_hint := some sh, ab := [] }) hint color bold
          obtain ⟨cb2, cl2, cp2⟩ := clearHint_frame
            ({ l with showing_hint := some sh, ab := [] } : linenoiseState)
          exact ⟨sb.trans cb2, sl.trans cl2, sp.trans cp2⟩
        · exact ⟨rfl, rfl, rfl⟩

/-- C9: hint processing (querying the provider, drawing, replacing or
erasing a hint) never changes the buffer content, length or cursor, and
the line returned on Enter is exactly the buffer content — the hint text
is never part of it. -/
theorem C9_hints_frame (hcb : Option HintsCallback) (mask : Bool)
    (hist : List (List Nat)) (l : linenoiseState) (rest : List Nat)
    (hwf : WellFormed l) (hnz : ∀ i, i < l.len → l.buf i ≠ 0) :
    (handleHints hcb l).buf = l.buf ∧
    (handleHints hcb l).len = l.len ∧
    (handleHints hcb l).pos = l.pos ∧
    (linenoiseEditFeed none hcb mask hist l (13 :: rest)).1 =
      .line (bufSlice l.buf 0 l.len) := by
  obtain ⟨hb, hl, hp⟩ := handleHints_frame hcb l
  have hc := cString_eq_content l hwf hnz
  refine ⟨hb, hl, hp, ?_⟩
  cases hcb with
  | none =>
    simp only [linenoiseEditFeed]
    simpa using congrArg FeedResult.line hc
  | some cb =>
    simp only [linenoiseEditFeed, refreshLine]
    simpa using congrArg FeedResult.line hc

/-- Witness for C9 at a concrete session with no provider registered. -/
theorem C9_hints_frame_witness :
    WellFormed emptySession ∧
    (handleHints none emptySession).buf = emptySession.buf ∧
    (linenoiseEditFeed none none false [[]] emptySession [13]).1 =
      .line (bufSlice emptySession.buf 0 emptySession.len) := by
  have hnz : ∀ i, i < emptySession.len → emptySession.buf i ≠ 0 := by
    intro i h
    simp [emptySession] at h
  exact ⟨emptySession_wf,
    (C9_hints_frame none false [[]] emptySession [] emptySession_wf hnz).1,
    (C9_hints_frame none false [[]] emptySession [] emptySession_wf hnz).2.2.2⟩

/-- A line shorter than the fgets buffer is read whole, including its
newline. -/
theorem takeFgets_line (rest : List Nat) :
    ∀ (e : List Nat) (n : Nat), e.length < n → (∀ b ∈ e, b ≠ 10) →
      takeFgets n (e ++ 10 :: rest) = e ++ [10] := by
  intro e
  induction e with
  | nil =>
    intro n hn h10
    match n, hn with
    | m + 1, _ => simp [takeFgets]
  | cons b t ih =>
    intro n hn h10
    match n, hn with
    | m + 1, hm =>
      have hb : ¬ b = 10 := h10 b (by simp)
      simp only [List.cons_append, takeFgets, hb, if_false, List.append_eq]
      rw [ih m (by simp at hm; omega) (fun x hx => h10 x (by simp [hx]))]

/-- The fgets loop splits a saved history back into its newline-terminated
lines. -/
theorem fgetsSplit_save (hist : List (List Nat)) :
    ∀ fuel, (∀ e ∈ hist, e.length ≤ 510 ∧ ∀ b ∈ e, b ≠ 10) →
      (linenoiseHistorySave hist).length ≤ fuel →
      fgetsSplit fuel (linenoiseHistorySave hist) = hist.map (fun e => e ++ [10]) := by
  induction hist with
  | nil =>
    intro fuel _ _
    cases fuel <;> simp [fgetsSplit, linenoiseHistorySave]
  | cons h t ih =>
    intro fuel hok hfuel
    have hsave : linenoiseHistorySave (h :: t) = h ++ 10 :: linenoiseHistorySave t := by
      simp [linenoiseHistorySave]
    rw [hsave] at hfuel ⊢
    cases fuel with
    | zero => simp at hfuel
    | succ f =>
      have hne : ¬ (h ++ 10 :: linenoiseHistorySave t) = [] := by simp
      have hline : takeFgets 511 (h ++ 10 :: linenoiseHistorySave t) = h ++ [10] := by
        apply takeFgets_line
        · have := (hok h (by simp)).1
          omega
        · exact (hok h (by simp)).2
      have hdrop : (h ++ 10 :: linenoiseHistorySave t).drop (h ++ [10]).length =
          linenoiseHistorySave t := by
        rw [show h ++ 10 :: linenoiseHistorySave t = (h ++ [10]) ++ linenoiseHistorySave t
          by simp]
        exact List.drop_left _ _
      simp only [fgetsSplit, hne, if_false, hline, hdrop]
      rw [ih f (fun e he => hok e (by simp [he])) (by simp at hfuel; omega)]
      simp

/-- takeWhile up to a terminator byte recovers the line. -/
theorem takeWhile_ne_append (v : Nat) :
    ∀ (e : List Nat), (∀ b ∈ e, b ≠ v) →
      (e ++ [v]).takeWhile (fun b => b != v) = e := by
  intro e
  induction e with
  | nil => simp
  | cons a t ih =>
    intro h
    have ha : a ≠ v := h a (by simp)
    simp only [List.cons_append, List.takeWhile_cons, bne_iff_ne, ne_eq, ha,
      not_false_eq_true, if_true]
    rw [ih (fun b hb => h b (by simp [hb]))]

/-- Stripping the trailing newline from a saved entry recovers the entry
when it contains no carriage return or newline bytes. -/
theorem stripNewline_entry (e : List Nat) (h10 : ∀ b ∈ e, b ≠ 10)
    (h13 : ∀ b ∈ e, b ≠ 13) :
    stripNewline (e ++ [10]) = e := by
  unfold stripNewline
  have hc : ¬ 13 ∈ e ++ [10] := by
    simp only [List.mem_append, List.mem_singleton]
    rintro (hm | hm)
    · exact h13 13 hm rfl
    · omega
  rw [if_neg hc]
  exact takeWhile_ne_append 10 e h10

/-- Folding the saved lines through add with the stripping applied equals
folding the raw entries. -/
theorem foldl_strip_append (maxLen : Nat) :
    ∀ (ls : List (List Nat)) (acc : List (List Nat)),
      (∀ e ∈ ls, (∀ b ∈ e, b ≠ 10) ∧ (∀ b ∈ e, b ≠ 13)) →
      (ls.map (fun e => e ++ [10])).foldl
        (fun h line => linenoiseHistoryAdd maxLen h (stripNewline line)) acc =
      ls.foldl (linenoiseHistoryAdd maxLen) acc := by
  intro ls
  induction ls with
  | nil => intro acc _; simp
  | cons e t ih =>
    intro acc hok
    simp only [List.map_cons, List.foldl_cons]
    rw [stripNewline_entry e (hok e (by simp)).1 (hok e (by simp)).2]
    exact ih _ (fun x hx => hok x (by simp [hx]))

/-- C7 (amended): the save/load round trip reproduces the store exactly
when the store fits its max length, has no two adjacent equal entries and
every entry is a line of at most 510 bytes free of nul, newline and
carriage-return bytes; outside these conditions the line-oriented format
and the duplicate check of add lose information. -/
theorem C7_save_load_roundtrip (maxLen : Nat) (hist : List (List Nat))
    (hlen : hist.length ≤ maxLen) (hch : List.Chain' (· ≠ ·) hist)
    (hok : ∀ e ∈ hist, e.length ≤ 510 ∧ ∀ b ∈ e, b ≠ 0 ∧ b ≠ 10 ∧ b ≠ 13) :
    linenoiseHistoryLoad maxLen [] (linenoiseHistorySave hist) = hist := by
  unfold linenoiseHistoryLoad
  rw [fgetsSplit_save hist _
    (fun e he => ⟨(hok e he).1, fun b hb => ((hok e he).2 b hb).2.1⟩) (Nat.le_refl _)]
  rw [foldl_strip_append maxLen hist []
    (fun e he => ⟨fun b hb => ((hok e he).2 b hb).2.1, fun b hb => ((hok e he).2 b hb).2.2⟩)]
  have := historyAdd_foldl_append maxLen hist [] (by simpa using hlen) (by simpa using hch)
  simpa using this

/-- Witness for C7 on a concrete two-entry store. -/
theorem C7_save_load_roundtrip_witness :
    ([[97], [98]] : List (List Nat)).length ≤ 100 ∧
    List.Chain' (· ≠ ·) ([[97], [98]] : List (List Nat)) ∧
    linenoiseHistoryLoad 100 [] (linenoiseHistorySave [[97], [98]]) = [[97], [98]] := by
  have hch : List.Chain' (· ≠ ·) ([[97], [98]] : List (List Nat)) :=
    List.chain'_cons.mpr ⟨by simp, List.chain'_singleton _⟩
  refine ⟨by simp, hch, C7_save_load_roundtrip 100 [[97], [98]] (by simp) hch ?_⟩
  intro e he
  simp only [List.mem_cons, List.not_mem_nil, or_false] at he
  rcases he with he | he <;> subst he <;> refine ⟨by simp, ?_⟩ <;>
    intro b hb <;> simp only [List.mem_singleton] at hb <;> subst hb <;> omega

/-- C7 counterexample: a store with two equal adjacent entries (reachable
through in-session history navigation, see the C6 trace) does not survive
the save/load round trip: load feeds each line through
linenoiseHistoryAdd, whose duplicate check drops the repeated entry. -/
theorem C7_roundtrip_counterexample :
    linenoiseHistoryLoad 100 [] (linenoiseHistorySave [[104], [104]]) = [[104]] ∧
    ([[104]] : List (List Nat)) ≠ [[104], [104]] := by
  constructor
  · rfl
  · simp

/-- Witness for C2 at a concrete session with room for one more byte. -/
theorem C2_insert_backspace_inverse_witness :
    WellFormed emptySession ∧ emptySession.len < capacity emptySession - 1 ∧
    (linenoiseEditBackspace (linenoiseEditInsert false emptySession 97)).len =
      emptySession.len := by
  have hroom : emptySession.len < capacity emptySession - 1 := by
    simp [capacity, emptySession]
  exact ⟨emptySession_wf, hroom,
    (C2_insert_backspace_inverse false emptySession 97 emptySession_wf hroom).1⟩
